import Mathlib

/-!
Verification development for the `TaskScheduler` of `src/task_scheduler.py`.

Shallow embedding conventions:
* A naive `datetime` instant is a `Nat`: microseconds since an arbitrary
  epoch midnight.  `DAY` is the length of a calendar day in microseconds,
  so `τ / DAY` is the calendar date and `τ % DAY` the time of day
  (with seconds and microseconds resolution).
* `time_str` ("HH:MM") is carried in already-split form as a pair of
  Python ints `(hour, minute) : Int × Int`; `datetime.replace` /
  `datetime.strptime` raise `ValueError` on out-of-range fields, which we
  model with `Except String`.
* Python statements mutate the scheduler object in order; an exception
  aborts the remaining statements but keeps the mutations already made.
  Methods therefore return the resulting state together with an
  `Except`-style outcome.
* `datetime.now()` is passed in as an explicit `now : Nat` parameter; the
  few `now()` calls inside a single loop iteration are modelled as one
  sampled instant.
* `heapq` (`heappush`, `heappop`, `heapify`, `_siftdown`, `_siftup`) is
  embedded following CPython's list-based implementation, with explicit
  fuel for the two sift loops (the fuel supplied at each call site is an
  upper bound on the number of loop iterations, so behaviour matches
  CPython exactly).
-/

/-- Length of one calendar day in microseconds. -/
def DAY : Nat := 86400000000

/-- Models `now.replace(hour=h, minute=m, second=0, microsecond=0)`:
keeps the calendar date of `now` and sets the time of day; raises
`ValueError` when the fields are out of range, as `datetime.replace` does. -/
def replaceTime (now : Nat) (hour minute : Int) : Except String Nat :=
  if hour < 0 ∨ 23 < hour ∨ minute < 0 ∨ 59 < minute then
    Except.error "ValueError"
  else
    Except.ok ((now / DAY) * DAY + (hour.toNat * 3600 + minute.toNat * 60) * 1000000)

/-- Embeds `Task.get_next_run_time` (src/task_scheduler.py:20-34), with
`datetime.now()` passed explicitly: today's instant at `hour:minute:00.000000`,
pushed to tomorrow when it is not strictly in the future. -/
def get_next_run_time (timeStr : Int × Int) (now : Nat) : Except String Nat :=
  match replaceTime now timeStr.1 timeStr.2 with
  | Except.error e => Except.error e
  | Except.ok next_run =>
      Except.ok (if next_run ≤ now then next_run + DAY else next_run)

/-- C1: for every in-range hour and minute and every instant `now`,
`get_next_run_time` succeeds and returns an instant strictly greater than
`now`, whose time of day is exactly `h:m:00.000000`, falling on today's or
tomorrow's calendar date; and when `now` is exactly today's `h:m` instant
the result is tomorrow's `h:m` instant. -/
theorem c1_get_next_run_time (h m : Int) (now : Nat)
    (hh : 0 ≤ h ∧ h ≤ 23) (hm : 0 ≤ m ∧ m ≤ 59) :
    ∃ r, get_next_run_time (h, m) now = Except.ok r ∧
      now < r ∧
      r % DAY = (h.toNat * 3600 + m.toNat * 60) * 1000000 ∧
      (r / DAY = now / DAY ∨ r / DAY = now / DAY + 1) ∧
      (now = (now / DAY) * DAY + (h.toNat * 3600 + m.toNat * 60) * 1000000 →
        r = now + DAY) := by
  have hnot : ¬ ((h : Int) < 0 ∨ 23 < h ∨ m < 0 ∨ 59 < m) := by
    push_neg
    exact ⟨hh.1, hh.2, hm.1, hm.2⟩
  unfold get_next_run_time replaceTime DAY
  simp only [if_neg hnot]
  by_cases hle : (now / 86400000000) * 86400000000 +
      (h.toNat * 3600 + m.toNat * 60) * 1000000 ≤ now
  · rw [if_pos hle]
    refine ⟨_, rfl, ?_, ?_, ?_, ?_⟩ <;> omega
  · rw [if_neg hle]
    refine ⟨_, rfl, ?_, ?_, ?_, ?_⟩ <;> omega

/-! ## CPython `heapq` embedding

`heap[i]` is modelled as `List.getD i default`; every access the source
performs is in range, so the default is never consulted. -/

/-- The `heapq._siftdown(heap, startpos, pos)` loop body; `newitem` has been read
from `heap[pos]` by the wrapper.  Fuel bounds the number of iterations
(`pos` strictly decreases, so `pos` units of fuel always suffice). -/
def siftdownAux [Inhabited α] (lt : α → α → Bool) (startpos : Nat) :
    Nat → List α → α → Nat → List α
  | 0, heap, newitem, pos => heap.set pos newitem
  | fuel+1, heap, newitem, pos =>
    if startpos < pos then
      let parentpos := (pos - 1) / 2
      let parent := heap.getD parentpos default
      if lt newitem parent then
        siftdownAux lt startpos fuel (heap.set pos parent) newitem parentpos
      else heap.set pos newitem
    else heap.set pos newitem

/-- Embeds `heapq._siftdown(heap, startpos, pos)`. -/
def siftdown [Inhabited α] (lt : α → α → Bool) (heap : List α)
    (startpos pos : Nat) : List α :=
  siftdownAux lt startpos pos heap (heap.getD pos default) pos

/-- The `heapq._siftup(heap, pos)` loop body; `endpos = len(heap)` and
`newitem = heap[pos]` are read by the wrapper.  Fuel bounds the number of
iterations (`pos` at least doubles below `endpos`, so `endpos` units
always suffice). -/
def siftupAux [Inhabited α] (lt : α → α → Bool) (endpos startpos : Nat) :
    Nat → List α → α → Nat → List α
  | 0, heap, newitem, pos =>
      siftdownAux lt startpos pos (heap.set pos newitem) newitem pos
  | fuel+1, heap, newitem, pos =>
    if 2*pos+1 < endpos then
      let childpos :=
        if 2*pos+2 < endpos ∧
            ¬ lt (heap.getD (2*pos+1) default) (heap.getD (2*pos+2) default)
        then 2*pos+2 else 2*pos+1
      siftupAux lt endpos startpos fuel
        (heap.set pos (heap.getD childpos default)) newitem childpos
    else
      siftdownAux lt startpos pos (heap.set pos newitem) newitem pos

/-- Embeds `heapq._siftup(heap, pos)`. -/
def siftup [Inhabited α] (lt : α → α → Bool) (heap : List α) (pos : Nat) :
    List α :=
  siftupAux lt heap.length pos heap.length heap (heap.getD pos default) pos

/-- Embeds `heapq.heappush(heap, item)`: append, then sift the last slot down
towards the root. -/
def heappush [Inhabited α] (lt : α → α → Bool) (heap : List α) (item : α) :
    List α :=
  siftdown lt (heap ++ [item]) 0 heap.length

/-- Embeds `heapq.heappop(heap)`: `none` models the `IndexError` on an empty list;
otherwise returns the popped root and the remaining heap. -/
def heappop [Inhabited α] (lt : α → α → Bool) (heap : List α) :
    Option (α × List α) :=
  match heap.getLast? with
  | none => none
  | some lastelt =>
      let rest := heap.dropLast
      if rest.isEmpty then some (lastelt, rest)
      else some (rest.getD 0 default, siftup lt (rest.set 0 lastelt) 0)

/-- The `heapq.heapify(x)` iteration: runs `_siftup` at positions
`k-1, k-2, …, 0`. -/
def heapifyAux [Inhabited α] (lt : α → α → Bool) : Nat → List α → List α
  | 0, heap => heap
  | k+1, heap => heapifyAux lt k (siftup lt heap k)

/-- Embeds `heapq.heapify(x)`. -/
def heapify [Inhabited α] (lt : α → α → Bool) (heap : List α) : List α :=
  heapifyAux lt (heap.length / 2) heap

/-! ### The sift operations permute the heap's contents -/

theorem list_getD_set_self [Inhabited α] (l : List α) (i : Nat) (a : α)
    (hi : i < l.length) : (l.set i a).getD i default = a := by
  induction l generalizing i with
  | nil => simp at hi
  | cons x t ih =>
    cases i with
    | zero => simp
    | succ j => simpa using ih j (by simpa using hi)

theorem list_getD_set_ne [Inhabited α] (l : List α) (i j : Nat) (a : α)
    (hij : i ≠ j) : (l.set i a).getD j default = l.getD j default := by
  induction l generalizing i j with
  | nil => simp
  | cons x t ih =>
    cases i with
    | zero =>
      cases j with
      | zero => exact absurd rfl hij
      | succ j' => simp
    | succ i' =>
      cases j with
      | zero => simp
      | succ j' => simpa using ih i' j' (by omega)

theorem list_getD_concat_length [Inhabited α] (l : List α) (a : α) :
    (l ++ [a]).getD l.length default = a := by
  induction l with
  | nil => simp
  | cons x t ih =>
    simp only [List.cons_append, List.length_cons, List.getD_cons_succ]
    exact ih

/-- Writing `a` into slot `i` trades the old inhabitant of slot `i` for `a`,
as multisets. -/
theorem ms_set [Inhabited α] (l : List α) (i : Nat) (a : α)
    (hi : i < l.length) :
    l.getD i default ::ₘ (↑(l.set i a) : Multiset α) = a ::ₘ ↑l := by
  induction l generalizing i with
  | nil => simp at hi
  | cons x t ih =>
    cases i with
    | zero =>
      simp only [List.getD_cons_zero, List.set_cons_zero]
      simp only [Multiset.cons_coe]
      exact Multiset.coe_eq_coe.mpr (List.Perm.swap _ _ _)
    | succ j =>
      have h := ih j (by simpa using hi)
      simp only [List.set_cons_succ, List.getD_cons_succ]
      calc t.getD j default ::ₘ (↑(x :: t.set j a) : Multiset α)
          = x ::ₘ t.getD j default ::ₘ ↑(t.set j a) := by
            simp only [Multiset.cons_coe]
            exact Multiset.coe_eq_coe.mpr (List.Perm.swap _ _ _)
        _ = x ::ₘ a ::ₘ ↑t := by rw [h]
        _ = a ::ₘ ↑(x :: t) := by
            simp only [Multiset.cons_coe]
            exact Multiset.coe_eq_coe.mpr (List.Perm.swap _ _ _)

theorem siftdownAux_ms [Inhabited α] (lt : α → α → Bool) (startpos : Nat)
    (fuel : Nat) :
    ∀ (heap : List α) (item : α) (pos : Nat), pos < heap.length →
      heap.getD pos default ::ₘ
          (↑(siftdownAux lt startpos fuel heap item pos) : Multiset α) =
        item ::ₘ ↑heap := by
  induction fuel with
  | zero => intro heap item pos hpos; exact ms_set heap pos item hpos
  | succ fuel ih =>
    intro heap item pos hpos
    simp only [siftdownAux]
    by_cases hsp : startpos < pos
    · rw [if_pos hsp]
      by_cases hlt : lt item (heap.getD ((pos - 1) / 2) default) = true
      · rw [if_pos hlt]
        have hpp : (pos - 1) / 2 < pos := by omega
        have hpplen : (pos - 1) / 2 < (heap.set pos (heap.getD ((pos - 1) / 2) default)).length := by
          simpa using lt_trans hpp hpos
        have hrec := ih (heap.set pos (heap.getD ((pos - 1) / 2) default))
          item ((pos - 1) / 2) hpplen
        rw [list_getD_set_ne heap pos ((pos - 1) / 2) _ (by omega)] at hrec
        have hset := ms_set heap pos (heap.getD ((pos - 1) / 2) default) hpos
        have key : heap.getD ((pos - 1) / 2) default ::ₘ
            (heap.getD pos default ::ₘ
              (↑(siftdownAux lt startpos fuel
                  (heap.set pos (heap.getD ((pos - 1) / 2) default))
                  item ((pos - 1) / 2)) : Multiset α)) =
            heap.getD ((pos - 1) / 2) default ::ₘ (item ::ₘ ↑heap) := by
          calc heap.getD ((pos - 1) / 2) default ::ₘ
              (heap.getD pos default ::ₘ _) =
              heap.getD pos default ::ₘ
                (heap.getD ((pos - 1) / 2) default ::ₘ _) :=
                Multiset.cons_swap _ _ _
            _ = heap.getD pos default ::ₘ (item ::ₘ
                  ↑(heap.set pos (heap.getD ((pos - 1) / 2) default))) := by
                rw [hrec]
            _ = item ::ₘ (heap.getD pos default ::ₘ
                  ↑(heap.set pos (heap.getD ((pos - 1) / 2) default))) :=
                Multiset.cons_swap _ _ _
            _ = item ::ₘ (heap.getD ((pos - 1) / 2) default ::ₘ ↑heap) := by
                rw [hset]
            _ = heap.getD ((pos - 1) / 2) default ::ₘ (item ::ₘ ↑heap) :=
                Multiset.cons_swap _ _ _
        exact (Multiset.cons_inj_right _).mp key
      · rw [if_neg hlt]; exact ms_set heap pos item hpos
    · rw [if_neg hsp]; exact ms_set heap pos item hpos

/-- The trailing `heap[pos] = newitem; _siftdown(heap, startpos, pos)` that
ends `_siftup`, as a multiset trade of slot `pos`. -/
theorem siftup_exit_ms [Inhabited α] (lt : α → α → Bool) (startpos : Nat)
    (heap : List α) (item : α) (pos : Nat) (hpos : pos < heap.length) :
    heap.getD pos default ::ₘ
        (↑(siftdownAux lt startpos pos (heap.set pos item) item pos) :
          Multiset α) =
      item ::ₘ ↑heap := by
  have h := siftdownAux_ms lt startpos pos (heap.set pos item) item pos
    (by simpa using hpos)
  rw [list_getD_set_self heap pos item hpos] at h
  rw [(Multiset.cons_inj_right _).mp h]
  exact ms_set heap pos item hpos

/-- One iteration of the `_siftup` loop (move child `c` up into slot `pos`)
preserves the multiset-trade invariant. -/
theorem siftup_step_ms [Inhabited α] (lt : α → α → Bool)
    (endpos startpos fuel : Nat)
    (ih : ∀ (heap : List α) (item : α) (pos : Nat), pos < heap.length →
      endpos ≤ heap.length →
      heap.getD pos default ::ₘ
          (↑(siftupAux lt endpos startpos fuel heap item pos) : Multiset α) =
        item ::ₘ ↑heap)
    (heap : List α) (item : α) (pos c : Nat) (hpos : pos < heap.length)
    (hc : c < endpos) (hpc : pos ≠ c) (hend : endpos ≤ heap.length) :
    heap.getD pos default ::ₘ
        (↑(siftupAux lt endpos startpos fuel
            (heap.set pos (heap.getD c default)) item c) : Multiset α) =
      item ::ₘ ↑heap := by
  have hclen : c < (heap.set pos (heap.getD c default)).length := by
    simp; omega
  have hrec := ih (heap.set pos (heap.getD c default)) item c hclen
    (by simp; omega)
  rw [list_getD_set_ne heap pos c _ hpc] at hrec
  have hset := ms_set heap pos (heap.getD c default) hpos
  have key : heap.getD c default ::ₘ
      (heap.getD pos default ::ₘ
        (↑(siftupAux lt endpos startpos fuel
            (heap.set pos (heap.getD c default)) item c) : Multiset α)) =
      heap.getD c default ::ₘ (item ::ₘ ↑heap) := by
    calc heap.getD c default ::ₘ (heap.getD pos default ::ₘ _) =
        heap.getD pos default ::ₘ (heap.getD c default ::ₘ _) :=
          Multiset.cons_swap _ _ _
      _ = heap.getD pos default ::ₘ (item ::ₘ
            ↑(heap.set pos (heap.getD c default))) := by rw [hrec]
      _ = item ::ₘ (heap.getD pos default ::ₘ
            ↑(heap.set pos (heap.getD c default))) := Multiset.cons_swap _ _ _
      _ = item ::ₘ (heap.getD c default ::ₘ ↑heap) := by rw [hset]
      _ = heap.getD c default ::ₘ (item ::ₘ ↑heap) := Multiset.cons_swap _ _ _
  exact (Multiset.cons_inj_right _).mp key

theorem siftupAux_ms [Inhabited α] (lt : α → α → Bool)
    (endpos startpos fuel : Nat) :
    ∀ (heap : List α) (item : α) (pos : Nat), pos < heap.length →
      endpos ≤ heap.length →
      heap.getD pos default ::ₘ
          (↑(siftupAux lt endpos startpos fuel heap item pos) : Multiset α) =
        item ::ₘ ↑heap := by
  induction fuel with
  | zero =>
    intro heap item pos hpos _
    exact siftup_exit_ms lt startpos heap item pos hpos
  | succ fuel ih =>
    intro heap item pos hpos hend
    simp only [siftupAux]
    by_cases hch : 2*pos+1 < endpos
    · rw [if_pos hch]
      by_cases hcond : 2*pos+2 < endpos ∧
          ¬ lt (heap.getD (2*pos+1) default) (heap.getD (2*pos+2) default)
      · rw [if_pos hcond]
        exact siftup_step_ms lt endpos startpos fuel ih heap item pos
          (2*pos+2) hpos hcond.1 (by omega) hend
      · rw [if_neg hcond]
        exact siftup_step_ms lt endpos startpos fuel ih heap item pos
          (2*pos+1) hpos hch (by omega) hend
    · rw [if_neg hch]
      exact siftup_exit_ms lt startpos heap item pos hpos

/-- The `_siftup` operation permutes the heap. -/
theorem siftup_ms [Inhabited α] (lt : α → α → Bool) (heap : List α)
    (pos : Nat) (hpos : pos < heap.length) :
    (↑(siftup lt heap pos) : Multiset α) = ↑heap :=
  (Multiset.cons_inj_right _).mp
    (siftupAux_ms lt heap.length pos heap.length heap
      (heap.getD pos default) pos hpos le_rfl)

/-- Pushing adds exactly the pushed item to the heap's contents. -/
theorem heappush_ms [Inhabited α] (lt : α → α → Bool) (heap : List α)
    (item : α) :
    (↑(heappush lt heap item) : Multiset α) = item ::ₘ ↑heap := by
  unfold heappush siftdown
  have hlen : heap.length < (heap ++ [item]).length := by simp
  have h := siftdownAux_ms lt 0 heap.length (heap ++ [item])
    ((heap ++ [item]).getD heap.length default) heap.length hlen
  rw [list_getD_concat_length] at h
  rw [list_getD_concat_length, (Multiset.cons_inj_right _).mp h]
  exact Multiset.coe_eq_coe.mpr (List.perm_append_singleton item heap)

theorem list_dropLast_getLast? (l : List α) (a : α)
    (h : l.getLast? = some a) : l.dropLast ++ [a] = l := by
  induction l with
  | nil => simp at h
  | cons x t ih =>
    cases t with
    | nil =>
      simp only [List.getLast?_singleton, Option.some.injEq] at h
      simp [h]
    | cons y u =>
      rw [List.getLast?_cons_cons] at h
      simpa using ih h

/-- Popping removes exactly the returned root from the heap's contents. -/
theorem heappop_ms [Inhabited α] (lt : α → α → Bool) (heap : List α)
    (x : α) (rest : List α) (h : heappop lt heap = some (x, rest)) :
    x ::ₘ (↑rest : Multiset α) = ↑heap := by
  unfold heappop at h
  cases hl : heap.getLast? with
  | none => rw [hl] at h; simp at h
  | some lastelt =>
    rw [hl] at h
    dsimp only at h
    have hsplit := list_dropLast_getLast? heap lastelt hl
    by_cases hemp : heap.dropLast.isEmpty
    · rw [if_pos hemp] at h
      obtain ⟨hx, hrest⟩ := Prod.mk.injEq .. ▸ Option.some.injEq .. ▸ h
      rw [List.isEmpty_iff] at hemp
      rw [← hx, ← hrest, hemp, ← hsplit, hemp]
      simp
    · rw [if_neg hemp] at h
      obtain ⟨hx, hrest⟩ := Prod.mk.injEq .. ▸ Option.some.injEq .. ▸ h
      have hlen : 0 < heap.dropLast.length := by
        cases hdl : heap.dropLast with
        | nil => rw [hdl] at hemp; simp at hemp
        | cons z w => simp [hdl]
      have hsift := siftup_ms lt (heap.dropLast.set 0 lastelt) 0
        (by simpa using hlen)
      have hset := ms_set heap.dropLast 0 lastelt hlen
      rw [← hx, ← hrest, hsift, hset]
      conv_rhs => rw [← hsplit]
      exact (Multiset.coe_eq_coe.mpr
        (List.perm_append_singleton lastelt heap.dropLast)).symm

/-- Multiset-equal lists have equal length. -/
theorem ms_length_eq (l l' : List α)
    (h : (↑l : Multiset α) = ↑l') : l.length = l'.length := by
  have := congrArg Multiset.card h
  simpa using this

theorem heapifyAux_ms [Inhabited α] (lt : α → α → Bool) :
    ∀ (k : Nat) (heap : List α), k ≤ heap.length →
      (↑(heapifyAux lt k heap) : Multiset α) = ↑heap := by
  intro k
  induction k with
  | zero => intro heap _; rfl
  | succ k ih =>
    intro heap hk
    have hsift := siftup_ms lt heap k (by omega)
    have hlen : (siftup lt heap k).length = heap.length :=
      ms_length_eq _ _ hsift
    simp only [heapifyAux]
    rw [ih (siftup lt heap k) (by omega), hsift]

/-- Heapification permutes the list. -/
theorem heapify_ms [Inhabited α] (lt : α → α → Bool) (heap : List α) :
    (↑(heapify lt heap) : Multiset α) = ↑heap :=
  heapifyAux_ms lt (heap.length / 2) heap (Nat.div_le_self _ _)

/-! ## The scheduler model -/

/-- Embeds `Task` (src/task_scheduler.py:10-18).  `func` is opaque to the
scheduler: the only thing ever observed about it is whether invoking it
raises, recorded in `funcRaises`.  `timeStr` is the parsed `"HH:MM"`
pair.  (Named `SchedTask` because Lean's core library already uses
`Task`.) -/
structure SchedTask where
  name : String
  timeStr : Int × Int
  lastRun : Option Nat
  funcRaises : Bool
deriving DecidableEq

/-- Python `d.get(k)` over the insertion-ordered association list
modelling `self.tasks` (keys are unique on every reachable state). -/
def dictGet : List (String × SchedTask) → String → Option SchedTask
  | [], _ => none
  | p :: rest, k => if p.1 == k then some p.2 else dictGet rest k

/-- Python `dict` key-membership `k in d`. -/
def dictContains (d : List (String × SchedTask)) (k : String) : Bool :=
  (dictGet d k).isSome

/-- Python `d[k] = v`: update in place when the key exists, else append. -/
def dictSet : List (String × SchedTask) → String → SchedTask →
    List (String × SchedTask)
  | [], k, v => [(k, v)]
  | p :: rest, k, v =>
      if p.1 == k then (k, v) :: rest else p :: dictSet rest k v

/-- Python `del d[k]`. -/
def dictDel (d : List (String × SchedTask)) (k : String) :
    List (String × SchedTask) :=
  d.filter (fun p => !(p.1 == k))

/-- Python tuple comparison on the `(run_time, task_name)` queue entries
(`datetime`, then `str`, lexicographically). -/
def entryLt (a b : Nat × String) : Bool :=
  decide (a.1 < b.1) || (a.1 == b.1 && decide (a.2 < b.2))

/-- The mutable state of a `TaskScheduler` (src/task_scheduler.py:43-52).
`schedulerThread` records whether the background thread has been spawned;
`wakeupSet` is the state of the `threading.Event`. -/
structure SchedulerState where
  running : Bool
  schedulerThread : Bool
  tasks : List (String × SchedTask)
  taskQueue : List (Nat × String)
  wakeupSet : Bool
deriving DecidableEq

/-- Embeds `TaskScheduler.add_task` (src/task_scheduler.py:56-86), with the
`datetime.now()` sampled in `get_next_run_time` passed as `now`.  The task
is stored in `self.tasks` before the next-run computation, so an exception
from `get_next_run_time` propagates with the registry already mutated. -/
def add_task (s : SchedulerState) (now : Nat) (funcRaises : Bool)
    (schedule_time : Int × Int) (task_name : String) :
    SchedulerState × Except String String :=
  let task : SchedTask :=
    { name := task_name, timeStr := schedule_time, lastRun := none,
      funcRaises := funcRaises }
  let s1 := { s with tasks := dictSet s.tasks task_name task }
  match get_next_run_time schedule_time now with
  | Except.error e => (s1, Except.error e)
  | Except.ok next_run =>
    let q := heappush entryLt s1.taskQueue (next_run, task_name)
    let s2 := { s1 with taskQueue := q }
    if q.length = 1 ∨ next_run < (q.getD 0 default).1 then
      ({ s2 with wakeupSet := true }, Except.ok task_name)
    else (s2, Except.ok task_name)

/-- Embeds `TaskScheduler.add_midnight_task` (src/task_scheduler.py:88-99). -/
def add_midnight_task (s : SchedulerState) (now : Nat) (funcRaises : Bool)
    (task_name : String) : SchedulerState × Except String String :=
  add_task s now funcRaises (0, 0) task_name

/-- Embeds `TaskScheduler.remove_task` (src/task_scheduler.py:101-123). -/
def remove_task (s : SchedulerState) (task_name : String) :
    SchedulerState × Bool :=
  if dictContains s.tasks task_name then
    ({ s with
        tasks := dictDel s.tasks task_name,
        taskQueue := heapify entryLt
          (s.taskQueue.filter (fun e => !(e.2 == task_name))) }, true)
  else (s, false)

/-- Observable logging events of the scheduler. -/
inductive LogEvent where
  | executing (name : String)
  | completed (name : String)
  | taskError (name : String)
  | runningMissed (name : String)
  | warnAlreadyRunning
deriving DecidableEq

/-- Embeds `TaskScheduler._execute_task` (src/task_scheduler.py:183-192): invokes
`task.func()` inside `try/except Exception`; an exception is logged with
the task's name and never propagates. -/
def execute_task (task : SchedTask) : List LogEvent :=
  if task.funcRaises then
    [LogEvent.executing task.name, LogEvent.taskError task.name]
  else
    [LogEvent.executing task.name, LogEvent.completed task.name]

/-- What one iteration of the `while self.running` loop did. -/
inductive LoopAction where
  | stopped
  | idleWait
  | sleepWait (seconds : Nat)
  | skippedEmpty
  | skippedStale
  | skippedRemoved (name : String)
  | crashed (e : String)
  | dispatched (name : String)
deriving DecidableEq

/-- One iteration of the `while self.running` body of
`run_scheduler_loop` (src/task_scheduler.py:132-181), the iteration's
`datetime.now()` samples merged into the single instant `now`.  Returns
the new state, what the iteration did, and the `_execute_task` log. -/
def loop_iteration (s : SchedulerState) (now : Nat) :
    SchedulerState × LoopAction × List LogEvent :=
  if s.running = false then (s, LoopAction.stopped, [])
  else
    match s.taskQueue with
    | [] => ({ s with wakeupSet := false }, LoopAction.idleWait, [])
    | e0 :: _ =>
      if now < e0.1 then
        ({ s with wakeupSet := false }, LoopAction.sleepWait (e0.1 - now), [])
      else
        match heappop entryLt s.taskQueue with
        | none => (s, LoopAction.skippedEmpty, [])
        | some ((t, name), rest) =>
          if now < t then
            ({ s with taskQueue := heappush entryLt rest (t, name) },
              LoopAction.skippedStale, [])
          else
            match dictGet s.tasks name with
            | none =>
                ({ s with taskQueue := rest },
                  LoopAction.skippedRemoved name, [])
            | some task =>
              let task' := { task with lastRun := some now }
              let s1 := { s with tasks := dictSet s.tasks name task',
                                 taskQueue := rest }
              match get_next_run_time task'.timeStr now with
              | Except.error e => (s1, LoopAction.crashed e, [])
              | Except.ok next_run =>
                ({ s1 with
                    taskQueue := heappush entryLt rest (next_run, name) },
                  LoopAction.dispatched name, execute_task task')

/-- The `run_missed` scan of `start` (src/task_scheduler.py:208-221):
walks the registry in insertion order and synchronously executes every
task whose today's instant (`datetime.combine(now.date(), strptime(...))`)
is not in the future.  Returns the log and, when `strptime` raises on an
out-of-range time, the propagating `ValueError`. -/
def run_missed_scan (now : Nat) :
    List (String × SchedTask) → List LogEvent × Option String
  | [] => ([], none)
  | (task_name, task) :: rest =>
    match replaceTime now task.timeStr.1 task.timeStr.2 with
    | Except.error e => ([], some e)
    | Except.ok target_dt =>
      if now < target_dt then run_missed_scan now rest
      else
        let r := run_missed_scan now rest
        ((LogEvent.runningMissed task_name :: execute_task task) ++ r.1, r.2)

/-- Embeds `TaskScheduler.start` (src/task_scheduler.py:194-228).  A double start
logs a warning and returns normally; otherwise the running flag is set,
the optional missed-run scan executes synchronously, and the loop thread
is spawned.  The `Option String` is a propagating exception. -/
def start (s : SchedulerState) (now : Nat) (run_missed : Bool) :
    SchedulerState × List LogEvent × Option String :=
  if s.running then (s, [LogEvent.warnAlreadyRunning], none)
  else
    let s1 := { s with running := true }
    if run_missed then
      let r := run_missed_scan now s1.tasks
      match r.2 with
      | some e => (s1, r.1, some e)
      | none => ({ s1 with schedulerThread := true }, r.1, none)
    else ({ s1 with schedulerThread := true }, [], none)

/-! ### Dictionary lemmas -/

theorem dictGet_dictSet_self (d : List (String × SchedTask)) (k : String)
    (v : SchedTask) : dictGet (dictSet d k v) k = some v := by
  induction d with
  | nil => simp [dictSet, dictGet]
  | cons p rest ih =>
    by_cases h : p.1 == k
    · simp [dictSet, dictGet, h]
    · simp only [dictSet, h]
      simp only [dictGet, h]
      exact ih

theorem dictGet_dictSet_ne (d : List (String × SchedTask)) (k k' : String)
    (v : SchedTask) (h : k' ≠ k) :
    dictGet (dictSet d k v) k' = dictGet d k' := by
  have hkk : (k == k') = false := by
    simp only [beq_eq_false_iff_ne]
    exact fun he => h he.symm
  induction d with
  | nil => simp [dictSet, dictGet, hkk]
  | cons p rest ih =>
    by_cases hp : p.1 == k
    · have hp' : (p.1 == k') = false := by
        simp only [beq_eq_false_iff_ne]
        intro he
        rw [eq_of_beq hp] at he
        exact h he.symm
      simp [dictSet, dictGet, hp, hp', hkk]
    · simp only [dictSet, hp, Bool.false_eq_true, if_false]
      by_cases hq : p.1 == k'
      · simp [dictGet, hq]
      · simp only [dictGet, hq, Bool.false_eq_true, if_false]
        exact ih

theorem dictGet_dictDel_self (d : List (String × SchedTask)) (k : String) :
    dictGet (dictDel d k) k = none := by
  induction d with
  | nil => rfl
  | cons p rest ih =>
    by_cases hp : p.1 == k
    · simpa [dictDel, hp] using ih
    · simpa [dictDel, dictGet, hp] using ih

theorem dictGet_dictDel_ne (d : List (String × SchedTask)) (k k' : String)
    (h : k' ≠ k) : dictGet (dictDel d k) k' = dictGet d k' := by
  induction d with
  | nil => rfl
  | cons p rest ih =>
    by_cases hp : p.1 == k
    · have hp' : (p.1 == k') = false := by
        simp only [beq_eq_false_iff_ne]
        intro he
        rw [eq_of_beq hp] at he
        exact h he.symm
      simpa [dictDel, dictGet, hp, hp'] using ih
    · by_cases hq : p.1 == k'
      · simp [dictDel, dictGet, hp, hq]
      · simpa [dictDel, dictGet, hp, hq] using ih

/-- Multiset-equal lists agree on `countP`. -/
theorem countP_eq_of_ms (l l' : List α) (p : α → Bool)
    (h : (↑l : Multiset α) = ↑l') : l.countP p = l'.countP p :=
  (Multiset.coe_eq_coe.mp h).countP_eq p

deriving instance DecidableEq for Except

/-! ## Sample concrete states -/

/-- A scheduler holding one task `"a"` scheduled for 02:00, queued for
day 0, wakeup event clear. -/
def sampleA : SchedulerState :=
  { running := false, schedulerThread := false,
    tasks := [("a", { name := "a", timeStr := (2, 0), lastRun := none,
                      funcRaises := false })],
    taskQueue := [(7200000000, "a")], wakeupSet := false }

/-- A scheduler holding one task `"n"` scheduled for 02:00, queued for
day 0. -/
def sampleN : SchedulerState :=
  { running := false, schedulerThread := false,
    tasks := [("n", { name := "n", timeStr := (2, 0), lastRun := none,
                      funcRaises := false })],
    taskQueue := [(7200000000, "n")], wakeupSet := false }

/-- A stopped scheduler holding a midnight task `"m"` and a 16:00 task
`"f"`, with an empty queue. -/
def sampleM : SchedulerState :=
  { running := false, schedulerThread := false,
    tasks := [("m", { name := "m", timeStr := (0, 0), lastRun := none,
                      funcRaises := false }),
              ("f", { name := "f", timeStr := (16, 0), lastRun := none,
                      funcRaises := false })],
    taskQueue := [], wakeupSet := false }

/-- An empty, stopped scheduler. -/
def sampleEmpty : SchedulerState :=
  { running := false, schedulerThread := false, tasks := [],
    taskQueue := [], wakeupSet := false }

/-! ## Claim C2 -/

/-- C2 (counterexample): registering `"bad"` with hour 25 on an empty
scheduler raises `ValueError`, yet the registry is mutated — the claim's
"performs no mutation" is false on the code. -/
theorem c2_counterexample :
    (add_task sampleEmpty 0 false (25, 0) "bad").2 =
      Except.error "ValueError" ∧
    (add_task sampleEmpty 0 false (25, 0) "bad").1.tasks ≠
      sampleEmpty.tasks := by
  decide

/-- C2 (amended): adding a task with hour outside [0,23] or minute outside
[0,59] fails with a `ValueError` (not a dedicated `InvalidSchedule`), and
the queue and wakeup event are untouched — but the registry has already
been mutated: it now maps the name to the new task. -/
theorem c2_add_task_invalid (s : SchedulerState) (now : Nat) (fr : Bool)
    (hm : Int × Int) (name : String)
    (hbad : hm.1 < 0 ∨ 23 < hm.1 ∨ hm.2 < 0 ∨ 59 < hm.2) :
    (add_task s now fr hm name).2 = Except.error "ValueError" ∧
    (add_task s now fr hm name).1.taskQueue = s.taskQueue ∧
    (add_task s now fr hm name).1.wakeupSet = s.wakeupSet ∧
    (add_task s now fr hm name).1.tasks =
      dictSet s.tasks name
        { name := name, timeStr := hm, lastRun := none, funcRaises := fr } := by
  unfold add_task get_next_run_time replaceTime
  rw [if_pos hbad]
  exact ⟨rfl, rfl, rfl, rfl⟩

/-- C2 witness: the amended theorem applied at hour 25. -/
theorem c2_witness :
    (add_task sampleEmpty 0 false (25, 0) "bad").1.tasks =
      dictSet sampleEmpty.tasks "bad"
        { name := "bad", timeStr := (25, 0), lastRun := none,
          funcRaises := false } :=
  (c2_add_task_invalid sampleEmpty 0 false (25, 0) "bad"
    (by decide)).2.2.2

/-! ## Claim C3 -/

/-- C3 (counterexample): re-registering `"n"` (already queued) leaves two
queue entries named `"n"`, not exactly one. -/
theorem c3_counterexample :
    (add_task sampleN 0 false (3, 0) "n").1.taskQueue.countP
      (fun e => e.2 == "n") ≠ 1 := by
  decide

/-- C3 (amended): re-registering a name with a valid time replaces the
task in the registry, but the Ready Queue is not deduplicated: the number
of entries carrying that name grows by exactly one (the stale entry
remains). -/
theorem c3_add_task_reregister (s : SchedulerState) (now : Nat) (fr : Bool)
    (hm : Int × Int) (name : String)
    (hgood : ¬ (hm.1 < 0 ∨ 23 < hm.1 ∨ hm.2 < 0 ∨ 59 < hm.2))
    (_hreg : dictContains s.tasks name = true) :
    (add_task s now fr hm name).2 = Except.ok name ∧
    dictGet (add_task s now fr hm name).1.tasks name =
      some { name := name, timeStr := hm, lastRun := none,
             funcRaises := fr } ∧
    (add_task s now fr hm name).1.taskQueue.countP (fun e => e.2 == name) =
      s.taskQueue.countP (fun e => e.2 == name) + 1 := by
  obtain ⟨nr, hnr⟩ : ∃ nr, get_next_run_time hm now = Except.ok nr := by
    unfold get_next_run_time replaceTime
    rw [if_neg hgood]
    exact ⟨_, rfl⟩
  have hcount : ∀ q : List (Nat × String),
      (heappush entryLt q (nr, name)).countP (fun e => e.2 == name) =
        q.countP (fun e => e.2 == name) + 1 := by
    intro q
    have hms := heappush_ms entryLt q (nr, name)
    rw [Multiset.cons_coe] at hms
    rw [countP_eq_of_ms _ _ _ hms, List.countP_cons]
    simp
  unfold add_task
  rw [hnr]
  dsimp only
  split
  · exact ⟨rfl, dictGet_dictSet_self _ _ _, hcount _⟩
  · exact ⟨rfl, dictGet_dictSet_self _ _ _, hcount _⟩

/-- C3 witness: the amended theorem applied to `sampleN`. -/
theorem c3_witness :
    (add_task sampleN 0 false (3, 0) "n").1.taskQueue.countP
        (fun e => e.2 == "n") =
      sampleN.taskQueue.countP (fun e => e.2 == "n") + 1 :=
  (c3_add_task_reregister sampleN 0 false (3, 0) "n" (by decide)
    (by decide)).2.2

/-! ## Claim C4 -/

/-- C4: with `"a"` queued for 02:00 and the wakeup event clear, adding
`"b"` due 00:01 — strictly earlier than every queued entry — succeeds, the
new entry becomes the queue root, and yet the wakeup event is NOT set: the
`next_run < self.task_queue[0][0]` check runs after the push, when the
root already is the new entry, so only the empty-queue case ever signals. -/
theorem c4_wakeup_dead_check :
    (add_task sampleA 0 false (0, 1) "b").2 = Except.ok "b" ∧
    (add_task sampleA 0 false (0, 1) "b").1.taskQueue =
      [(60000000, "b"), (7200000000, "a")] ∧
    (60000000 : Nat) < 7200000000 ∧
    (add_task sampleA 0 false (0, 1) "b").1.wakeupSet = false := by
  decide

/-! ## Claim C10 -/

/-- C10: `remove_task` never touches the wakeup event (nor the running
flag or the loop thread), so a sleeping Execution Loop is not woken
early. -/
theorem c10_remove_task_wakeup_frame (s : SchedulerState) (name : String) :
    (remove_task s name).1.wakeupSet = s.wakeupSet ∧
    (remove_task s name).1.running = s.running ∧
    (remove_task s name).1.schedulerThread = s.schedulerThread := by
  unfold remove_task
  by_cases hc : dictContains s.tasks name
  · rw [if_pos hc]
    exact ⟨rfl, rfl, rfl⟩
  · rw [if_neg hc]
    exact ⟨rfl, rfl, rfl⟩

/-! ## Claim C5 -/

/-- C5: `remove_task` returns `true` exactly when the name is registered;
on success it deletes the registry entry (others preserved), leaves no
queue entry with that name while keeping every other entry (as a
multiset), and a second call returns `false` without changing anything;
on a miss the state is untouched. -/
theorem c5_remove_task (s : SchedulerState) (name : String) :
    ((remove_task s name).2 = dictContains s.tasks name) ∧
    (dictContains s.tasks name = true →
      dictGet (remove_task s name).1.tasks name = none ∧
      (∀ k, k ≠ name →
        dictGet (remove_task s name).1.tasks k = dictGet s.tasks k) ∧
      (remove_task s name).1.taskQueue.countP (fun e => e.2 == name) = 0 ∧
      (↑(remove_task s name).1.taskQueue : Multiset (Nat × String)) =
        ↑(s.taskQueue.filter (fun e => !(e.2 == name))) ∧
      remove_task (remove_task s name).1 name =
        ((remove_task s name).1, false)) ∧
    (dictContains s.tasks name = false → remove_task s name = (s, false)) := by
  by_cases hc : dictContains s.tasks name = true
  · have hrw : remove_task s name =
        ({ s with tasks := dictDel s.tasks name,
                  taskQueue := heapify entryLt
                    (s.taskQueue.filter (fun e => !(e.2 == name))) },
          true) := by
      unfold remove_task
      rw [if_pos hc]
    refine ⟨by rw [hrw, hc], fun _ => ?_,
      fun hf => absurd hc (by simp [hf])⟩
    have hms := heapify_ms entryLt
      (s.taskQueue.filter (fun e => !(e.2 == name)))
    rw [hrw]
    refine ⟨dictGet_dictDel_self _ _,
      fun k hk => dictGet_dictDel_ne _ _ _ hk, ?_, hms, ?_⟩
    · rw [countP_eq_of_ms _ _ _ hms, List.countP_eq_zero]
      intro a ha
      simpa using (List.mem_filter.mp ha).2
    · have hc2 : dictContains (dictDel s.tasks name) name = false := by
        unfold dictContains
        rw [dictGet_dictDel_self]
        rfl
      unfold remove_task
      rw [if_neg (by simp [hc2])]
  · rw [Bool.not_eq_true] at hc
    have hrw : remove_task s name = (s, false) := by
      unfold remove_task
      rw [if_neg (by simp [hc])]
    exact ⟨by rw [hrw, hc], fun h => absurd h (by simp [hc]),
      fun _ => hrw⟩

/-- C5 witness: removing `"a"` from `sampleA` succeeds, empties the queue
of `"a"` entries, and removing it again returns `false` unchanged. -/
theorem c5_witness :
    (remove_task sampleA "a").2 = dictContains sampleA.tasks "a" ∧
    (remove_task sampleA "a").1.taskQueue.countP (fun e => e.2 == "a") = 0 ∧
    remove_task (remove_task sampleA "a").1 "a" =
      ((remove_task sampleA "a").1, false) :=
  ⟨(c5_remove_task sampleA "a").1,
    ((c5_remove_task sampleA "a").2.1 (by decide)).2.2.1,
    ((c5_remove_task sampleA "a").2.1 (by decide)).2.2.2.2⟩

/-! ## The dispatch path of the Execution Loop -/

/-- Characterization of a dispatching iteration: a running scheduler with
a due root pops it, stamps `last_run`, re-arms the task's next occurrence,
and only then invokes the function (outside the lock). -/
theorem loop_dispatch_spec (s : SchedulerState) (now : Nat)
    (e0 : Nat × String) (tail : List (Nat × String)) (t : Nat)
    (name : String) (rest : List (Nat × String)) (task : SchedTask)
    (next_run : Nat)
    (hrun : s.running = true)
    (hq : s.taskQueue = e0 :: tail)
    (hdue0 : ¬ now < e0.1)
    (hpop : heappop entryLt s.taskQueue = some ((t, name), rest))
    (hdue : ¬ now < t)
    (htask : dictGet s.tasks name = some task)
    (hnr : get_next_run_time task.timeStr now = Except.ok next_run) :
    loop_iteration s now =
      ({ s with
          tasks := dictSet s.tasks name { task with lastRun := some now },
          taskQueue := heappush entryLt rest (next_run, name) },
        LoopAction.dispatched name,
        execute_task { task with lastRun := some now }) := by
  unfold loop_iteration
  rw [if_neg (show ¬ s.running = false by simp [hrun])]
  rw [hq] at hpop
  rw [hq]
  dsimp only
  rw [if_neg hdue0, hpop]
  dsimp only
  rw [if_neg hdue, htask]
  dsimp only
  rw [hnr]

/-! ## Claim C6 -/

/-- C6: when the dispatched task's function raises, the exception is
caught and logged with the task's name, the iteration still completes as
a normal dispatch (the loop survives), the popped entry's replacement —
the task's next occurrence — is in the queue alongside exactly the
untouched remaining entries, and `last_run` was stamped before the
invocation. -/
theorem c6_crashing_task_isolated (s : SchedulerState) (now : Nat)
    (e0 : Nat × String) (tail : List (Nat × String)) (t : Nat)
    (name : String) (rest : List (Nat × String)) (task : SchedTask)
    (next_run : Nat)
    (hrun : s.running = true)
    (hq : s.taskQueue = e0 :: tail)
    (hdue0 : ¬ now < e0.1)
    (hpop : heappop entryLt s.taskQueue = some ((t, name), rest))
    (hdue : ¬ now < t)
    (htask : dictGet s.tasks name = some task)
    (hnr : get_next_run_time task.timeStr now = Except.ok next_run)
    (hraise : task.funcRaises = true) :
    (loop_iteration s now).2.1 = LoopAction.dispatched name ∧
    (loop_iteration s now).2.2 =
      [LogEvent.executing task.name, LogEvent.taskError task.name] ∧
    (↑(loop_iteration s now).1.taskQueue : Multiset (Nat × String)) =
      (next_run, name) ::ₘ ↑rest ∧
    dictGet (loop_iteration s now).1.tasks name =
      some { task with lastRun := some now } := by
  rw [loop_dispatch_spec s now e0 tail t name rest task next_run hrun hq
    hdue0 hpop hdue htask hnr]
  refine ⟨rfl, ?_, ?_, ?_⟩
  · unfold execute_task
    rw [show ({ task with lastRun := some now } : SchedTask).funcRaises =
      true from hraise]
    rfl
  · exact heappush_ms entryLt rest (next_run, name)
  · exact dictGet_dictSet_self _ _ _

/-- A running scheduler holding the raising task `"e"` (01:00), due in the
queue. -/
def sampleE : SchedulerState :=
  { running := true, schedulerThread := true,
    tasks := [("e", { name := "e", timeStr := (1, 0), lastRun := none,
                      funcRaises := true })],
    taskQueue := [(3600000000, "e")], wakeupSet := false }

/-- C6 witness: the theorem applied to `sampleE` one microsecond past its
due time. -/
theorem c6_witness :
    (loop_iteration sampleE 3600000001).2.1 = LoopAction.dispatched "e" ∧
    (loop_iteration sampleE 3600000001).2.2 =
      [LogEvent.executing "e", LogEvent.taskError "e"] :=
  ⟨(c6_crashing_task_isolated sampleE 3600000001 (3600000000, "e") []
      3600000000 "e" []
      { name := "e", timeStr := (1, 0), lastRun := none, funcRaises := true }
      90000000000 rfl rfl (by decide) (by decide) (by decide) (by decide)
      (by decide) rfl).1,
    (c6_crashing_task_isolated sampleE 3600000001 (3600000000, "e") []
      3600000000 "e" []
      { name := "e", timeStr := (1, 0), lastRun := none, funcRaises := true }
      90000000000 rfl rfl (by decide) (by decide) (by decide) (by decide)
      (by decide) rfl).2.1⟩

/-! ## Claim C7 -/

/-- On a registry whose stored times are all in range, the missed-run scan
raises nothing and executes, in registry order, exactly the tasks whose
today's instant is not in the future. -/
theorem run_missed_scan_valid (now : Nat) (l : List (String × SchedTask))
    (hvalid : ∀ p ∈ l, ¬ (p.2.timeStr.1 < 0 ∨ 23 < p.2.timeStr.1 ∨
      p.2.timeStr.2 < 0 ∨ 59 < p.2.timeStr.2)) :
    run_missed_scan now l =
      ((l.filter (fun p => decide ((now / DAY) * DAY +
          (p.2.timeStr.1.toNat * 3600 + p.2.timeStr.2.toNat * 60) *
            1000000 ≤ now))).flatMap
        (fun p => LogEvent.runningMissed p.1 :: execute_task p.2),
       none) := by
  induction l with
  | nil => rfl
  | cons p rest ih =>
    have hp := hvalid p (List.mem_cons_self ..)
    have hrest := ih (fun q hq => hvalid q (List.mem_cons_of_mem _ hq))
    unfold run_missed_scan replaceTime
    rw [if_neg hp]
    dsimp only
    rw [List.filter_cons]
    by_cases hdue : now < (now / DAY) * DAY +
        (p.2.timeStr.1.toNat * 3600 + p.2.timeStr.2.toNat * 60) * 1000000
    · rw [if_pos hdue, hrest,
        if_neg (show ¬ (decide ((now / DAY) * DAY +
          (p.2.timeStr.1.toNat * 3600 + p.2.timeStr.2.toNat * 60) *
            1000000 ≤ now) = true) by simp; omega)]
    · rw [if_neg hdue, hrest,
        if_pos (show decide ((now / DAY) * DAY +
          (p.2.timeStr.1.toNat * 3600 + p.2.timeStr.2.toNat * 60) *
            1000000 ≤ now) = true by simp; omega)]
      rfl

/-- C7 (counterexample): `sampleM`'s task `"m"` is scheduled for 00:00,
whose instant today is the start of today — not strictly after it — yet
`start(run_missed=true)` at 14:00 executes it. -/
theorem c7_counterexample :
    replaceTime 50400000000 0 0 =
      Except.ok ((50400000000 / DAY) * DAY) ∧
    LogEvent.runningMissed "m" ∈ (start sampleM 50400000000 true).2.1 := by
  decide

/-- C7 (amended): `Start(runMissed=true)` on a stopped scheduler whose
registered times are in range raises nothing, spawns the loop thread, and
synchronously executes, in registry order and each exactly once, exactly
those registered tasks whose scheduled instant today is `≤ now` —
including tasks at exactly the start of today; tasks still in the future
today are not executed. -/
theorem c7_start_run_missed (s : SchedulerState) (now : Nat)
    (hrun : s.running = false)
    (hvalid : ∀ p ∈ s.tasks, ¬ (p.2.timeStr.1 < 0 ∨ 23 < p.2.timeStr.1 ∨
      p.2.timeStr.2 < 0 ∨ 59 < p.2.timeStr.2)) :
    start s now true =
      ({ s with running := true, schedulerThread := true },
       (s.tasks.filter (fun p => decide ((now / DAY) * DAY +
           (p.2.timeStr.1.toNat * 3600 + p.2.timeStr.2.toNat * 60) *
             1000000 ≤ now))).flatMap
         (fun p => LogEvent.runningMissed p.1 :: execute_task p.2),
       none) := by
  unfold start
  rw [if_neg (by simp [hrun])]
  dsimp only
  rw [show ({ s with running := true } : SchedulerState).tasks = s.tasks
    from rfl]
  rw [run_missed_scan_valid now s.tasks hvalid]
  rfl

/-- C7 witness: the amended theorem applied to `sampleM` at 14:00 — the
midnight task `"m"` fires during `Start`, the 16:00 task `"f"` does not. -/
theorem c7_witness :
    start sampleM 50400000000 true =
      ({ sampleM with running := true, schedulerThread := true },
       [LogEvent.runningMissed "m", LogEvent.executing "m",
        LogEvent.completed "m"],
       none) := by
  rw [c7_start_run_missed sampleM 50400000000 rfl (by decide)]
  decide

/-! ## Claim C8 -/

/-- C8 (counterexample): calling `start` on a running scheduler raises no
error at all — it logs a warning and returns with the state unchanged, so
"fails with an AlreadyRunning error" is false on the code. -/
theorem c8_counterexample :
    (start { sampleM with running := true } 0 true).2.2 = none ∧
    (start { sampleM with running := true } 0 true).1 =
      { sampleM with running := true } ∧
    (start { sampleM with running := true } 0 true).2.1 =
      [LogEvent.warnAlreadyRunning] := by
  decide

/-- C8 (amended): a double start is rejected without any effect — no
thread spawned, no missed task executed even with `runMissed=true`, state
untouched — but it does not fail: it logs a warning and returns
normally. -/
theorem c8_start_already_running (s : SchedulerState) (now : Nat)
    (rm : Bool) (hrun : s.running = true) :
    start s now rm = (s, [LogEvent.warnAlreadyRunning], none) := by
  unfold start
  rw [if_pos hrun]

/-- C8 witness: the amended theorem applied to a running `sampleM`. -/
theorem c8_witness :
    start { sampleM with running := true } 5 true =
      ({ sampleM with running := true }, [LogEvent.warnAlreadyRunning],
        none) :=
  c8_start_already_running { sampleM with running := true } 5 true rfl

/-! ## Claim C9 -/

/-- C9 (counterexample): `start(run_missed=true)` at 14:00 invokes task
`"m"` (its `executing` log appears) yet leaves its `lastRun` equal to
`none` — a missed-run invocation is not accompanied by a `lastRun`
update. -/
theorem c9_counterexample :
    LogEvent.executing "m" ∈ (start sampleM 50400000000 true).2.1 ∧
    dictGet (start sampleM 50400000000 true).1.tasks "m" =
      some { name := "m", timeStr := (0, 0), lastRun := none,
             funcRaises := false } := by
  decide

/-- C9 (amended): `lastRun` is written only by the Execution Loop: a
dispatching iteration stamps the dispatched task's `lastRun` with the
loop's sampled `now` (immediately before invocation) and changes no other
registry entry, while `start` — including its missed-run catch-up, whose
invocations therefore carry no `lastRun` update — never changes the
registry at all. -/
theorem c9_last_run_discipline :
    (∀ (s : SchedulerState) (now : Nat) (rm : Bool),
      (start s now rm).1.tasks = s.tasks) ∧
    (∀ (s : SchedulerState) (now : Nat) (e0 : Nat × String)
        (tail : List (Nat × String)) (t : Nat) (name : String)
        (rest : List (Nat × String)) (task : SchedTask) (next_run : Nat),
      s.running = true → s.taskQueue = e0 :: tail → ¬ now < e0.1 →
      heappop entryLt s.taskQueue = some ((t, name), rest) → ¬ now < t →
      dictGet s.tasks name = some task →
      get_next_run_time task.timeStr now = Except.ok next_run →
      dictGet (loop_iteration s now).1.tasks name =
          some { task with lastRun := some now } ∧
        ∀ k, k ≠ name →
          dictGet (loop_iteration s now).1.tasks k = dictGet s.tasks k) := by
  constructor
  · intro s now rm
    unfold start
    split
    · rfl
    · split
      · dsimp only
        split <;> rfl
      · rfl
  · intro s now e0 tail t name rest task next_run hrun hq hdue0 hpop hdue
      htask hnr
    rw [loop_dispatch_spec s now e0 tail t name rest task next_run hrun hq
      hdue0 hpop hdue htask hnr]
    exact ⟨dictGet_dictSet_self _ _ _,
      fun k hk => dictGet_dictSet_ne _ _ _ _ hk⟩

/-- C9 witness: the discipline applied concretely — `start` on `sampleM`
leaves the registry untouched, and a dispatch on `sampleE` stamps `"e"`'s
`lastRun` with the sampled instant. -/
theorem c9_witness :
    (start sampleM 50400000000 true).1.tasks = sampleM.tasks ∧
    dictGet (loop_iteration sampleE 3600000001).1.tasks "e" =
      some { name := "e", timeStr := (1, 0), lastRun := some 3600000001,
             funcRaises := true } :=
  ⟨c9_last_run_discipline.1 sampleM 50400000000 true,
    (c9_last_run_discipline.2 sampleE 3600000001 (3600000000, "e") []
      3600000000 "e" []
      { name := "e", timeStr := (1, 0), lastRun := none, funcRaises := true }
      90000000000 rfl rfl (by decide) (by decide) (by decide) (by decide)
      (by decide)).1⟩

/-- C1 witness: the Run-Time Calculator applied at 09:30 with `now` at
14:00 of day 0. -/
theorem c1_witness :
    ∃ r, get_next_run_time (9, 30) 50400000000 = Except.ok r ∧
      50400000000 < r ∧
      r % DAY = ((9 : Int).toNat * 3600 + (30 : Int).toNat * 60) * 1000000 ∧
      (r / DAY = 50400000000 / DAY ∨ r / DAY = 50400000000 / DAY + 1) ∧
      (50400000000 = (50400000000 / DAY) * DAY +
          ((9 : Int).toNat * 3600 + (30 : Int).toNat * 60) * 1000000 →
        r = 50400000000 + DAY) :=
  c1_get_next_run_time 9 30 50400000000 (by decide) (by decide)
